import Mathlib

/-!
Verification of the compute-message formatter and truncator of
ras-commander-mcp (src/server.py): the functions
`format_compute_messages_local` (lines 122-162) and the
formatting/truncation portion of `get_compute_messages_local`
(lines 88-115), shallowly embedded over `List Char`.

Python strings are modelled as `List Char`; every primitive used by the
source (str.split, str.strip, substring membership, str.startswith,
str.split with maxsplit 1, format-padding, str.join, slicing, str.rfind)
is embedded as an executable Lean function with Python semantics.
-/

namespace RasMcp

/-- Python strings are modelled as lists of characters. -/
abbrev Str := List Char

/-- The ASCII whitespace characters stripped by Python str.strip()
(the model covers the ASCII range, which is all the source ever feeds it). -/
def isPyWhitespace (c : Char) : Bool :=
  c = ' ' || c = '\t' || c = '\n' || c = '\r' || c = '\x0b' || c = '\x0c'

/-- Python str.strip(): remove leading and trailing whitespace. -/
def pyStrip (s : Str) : Str :=
  ((s.dropWhile isPyWhitespace).reverse.dropWhile isPyWhitespace).reverse

/-- Python substring membership, pat in s. -/
def containsSub (pat : Str) : Str → Bool
  | [] => List.isPrefixOf pat []
  | c :: t => List.isPrefixOf pat (c :: t) || containsSub pat t

/-- Python s.split(sep) for a two-character separator a,b:
split on every non-overlapping occurrence, left to right. -/
def splitOn2 (a b : Char) : Str → List Str
  | [] => [[]]
  | [c] => [[c]]
  | c :: d :: t =>
    if c = a && d = b then [] :: splitOn2 a b t
    else
      match splitOn2 a b (d :: t) with
      | [] => [[c]]
      | h :: r => (c :: h) :: r
termination_by s => s.length

/-- Python s.split(sep, 1) at the FIRST occurrence of a one-character
separator: returns the parts before and after it, or none if absent. -/
def breakAtFirst (sep : Char) : Str → Option (Str × Str)
  | [] => none
  | c :: t =>
    if c = sep then some ([], t)
    else
      match breakAtFirst sep t with
      | some (a, b) => some (c :: a, b)
      | none => none

/-- Python format spec of width 40 for strings: left-justify, pad with
spaces to a minimum width (strings longer than the width are unchanged). -/
def ljust (n : Nat) (s : Str) : Str := s ++ List.replicate (n - s.length) ' '

/-- Python s[:n] for an int n that may be negative: a negative bound
counts from the end of the string (Python slice semantics). -/
def pyTake (s : Str) (n : Int) : Str :=
  s.take (if n < 0 then ((s.length : Int) + n).toNat else n.toNat)

/-- Python s.rfind(c): the highest index of c in s, or -1 if absent. -/
def pyRfind (c : Char) (s : Str) : Int :=
  match List.findIdx? (fun x => x = c) s.reverse with
  | some i => (s.length : Int) - 1 - (i : Int)
  | none => -1

/-- The one-character line separator used by str.join and str.split. -/
def nlStr : Str := [Char.ofNat 10]

/-- The substring "Computation Task" tested by the classifier. -/
def taskPat : Str := ("Computation Task").toList

/-- The substring "Computation Speed" tested by the classifier. -/
def speedPat : Str := ("Computation Speed").toList

/-- The prefix "http" tested before colon-splitting a general message. -/
def httpPat : Str := ("http").toList

/-- The two-character separator tested first when splitting into lines. -/
def crlfPat : Str := [Char.ofNat 13, Char.ofNat 10]

/-- server.py line 138: the stripped line contains "Computation Task"
and a tab character (the loop breaks on such a line). -/
def isTaskLine (l : Str) : Bool := containsSub taskPat l && l.contains '\t'

/-- server.py line 140: the stripped line contains "Computation Speed"
and a tab character (the loop breaks on such a line). -/
def isSpeedLine (l : Str) : Bool := containsSub speedPat l && l.contains '\t'

/-- A line at which the collection loop of server.py lines 135-149 stops. -/
def isMarkerLine (l : Str) : Bool := isTaskLine l || isSpeedLine l

/-- server.py line 128: split the raw text on CRLF when it contains CRLF,
otherwise on LF. -/
def pySplitLines (t : Str) : List Str :=
  if containsSub crlfPat t then splitOn2 (Char.ofNat 13) (Char.ofNat 10) t
  else List.splitOn '\n' t

/-- The loop of server.py lines 135-149: strip each line, skip blank
lines, stop at the first task/speed marker line, collect the rest. -/
def collectGeneral : List Str → List Str
  | [] => []
  | l :: rest =>
    let s := pyStrip l
    if s.isEmpty then collectGeneral rest
    else if isMarkerLine s then []
    else s :: collectGeneral rest

/-- The general messages the formatter collects from a raw text. -/
def generalMessagesOf (t : Str) : List Str := collectGeneral (pySplitLines t)

/-- The " : " separator inserted between a padded key and its value. -/
def colonSep : Str := (" : ").toList

/-- server.py lines 155-160: render one general message; a message with a
colon that does not start with "http" is split at the first colon into a
stripped key left-justified to width 40, " : ", and the stripped value;
any other message is emitted verbatim. -/
def renderGeneral (msg : Str) : Str :=
  if msg.contains ':' && !(List.isPrefixOf httpPat msg) then
    match breakAtFirst ':' msg with
    | some (k, v) => ljust 40 (pyStrip k) ++ colonSep ++ pyStrip v
    | none => msg
  else msg

/-- Models Path(hdf_file_path).name for POSIX-style paths without a
trailing separator: the component after the last slash. -/
def pathName (p : Str) : Str := (p.reverse.takeWhile (fun c => !(c = '/'))).reverse

/-- The header label prefix of the formatted output. -/
def fromLabel : Str := ("Compute Messages from: ").toList

/-- The "General Messages:" section header line. -/
def gmHeaderLine : Str := ("General Messages:").toList

/-- The 40-dash separator rule under the section header. -/
def dashLine : Str := List.replicate 40 '-'

/-- server.py lines 130-134: the three header parts (label line, an
80-equals rule, and an empty line). -/
def headerParts (p : Str) : List Str :=
  [fromLabel ++ pathName p, List.replicate 80 '=', []]

/-- The body of format_compute_messages_local on an already-split line
list: header parts, then (only when some general message was collected)
the section header, the dash rule and the rendered messages, all joined
with a newline. -/
def formatLines (ls : List Str) (p : Str) : Str :=
  List.intercalate nlStr
    (headerParts p ++
      (if (collectGeneral ls).isEmpty then []
       else gmHeaderLine :: dashLine :: (collectGeneral ls).map renderGeneral))

/-- server.py lines 122-162: format_compute_messages_local. -/
def format_compute_messages_local (text p : Str) : Str :=
  formatLines (pySplitLines text) p

/-- server.py line 93: the character budget, 10,000 tokens times 4. -/
def max_chars : Nat := 10000 * 4

/-- server.py line 98: lines[-50:] if len(lines) > 50 else lines. -/
def last50Lines (ls : List Str) : List Str :=
  if ls.length > 50 then ls.drop (ls.length - 50) else ls

/-- server.py lines 97-101: the last-50-lines tail of the formatted text,
rejoined with newlines. -/
def tailText (F : Str) : Str := List.intercalate nlStr (last50Lines (List.splitOn '\n' F))

/-- server.py line 102: the fixed truncation notice. -/
def truncation_notice : Str :=
  ("\n\n[OUTPUT TRUNCATED: Response exceeded 10,000 tokens. Showing beginning and last 50 lines.]\n\n").toList

/-- server.py line 104: the signed character budget left for the head. -/
def availableChars (F : Str) : Int :=
  (max_chars : Int) - ((tailText F).length : Int) - (truncation_notice.length : Int)

/-- server.py lines 107-110: cut a head back to its last newline, but
only when rfind returns a positive index. -/
def cutToLastLine (s : Str) : Str :=
  if pyRfind '\n' s > 0 then s.take (pyRfind '\n' s).toNat else s

/-- server.py lines 95-112: return the formatted text unchanged when it
fits the budget, else truncated head plus notice plus last-50-lines tail. -/
def truncateStep (F : Str) : Str :=
  if F.length > max_chars then
    cutToLastLine (pyTake F (availableChars F)) ++ truncation_notice ++ tailText F
  else F

/-- The formatting-and-truncation portion of get_compute_messages_local
(server.py lines 88-112), applied to the already-extracted message text. -/
def get_compute_messages_local (text p : Str) : Str :=
  truncateStep (format_compute_messages_local text p)

/-- server.py lines 116-120: the except-branch of get_compute_messages_local
converts any internal error into one descriptive error line. -/
def errPrefix : Str := ("Error reading compute messages: ").toList

/-- The component boundary of get_compute_messages_local: a successful
formatting result is returned as is; an internal error e is converted to
the single line "Error reading compute messages: e" (server.py 116-120). -/
def handleComputeMessages (r : Except Str Str) : Str :=
  match r with
  | Except.ok s => s
  | Except.error e => errPrefix ++ e

/-- The header block of the formatted output: label line, newline,
80-equals rule, newline (what the formatter emits for an empty input). -/
def headerStr (p : Str) : Str :=
  fromLabel ++ pathName p ++ nlStr ++ List.replicate 80 '=' ++ nlStr

/-- The "General Messages" block: section header, dash rule, and each
rendered message preceded by a newline. -/
def generalSectionText (msgs : List Str) : Str :=
  gmHeaderLine ++ nlStr ++ dashLine ++ (msgs.map (fun m => nlStr ++ renderGeneral m)).flatten

/-- Modelled from the spec: the truncated output as section 4.1 describes
it — the head is the first (budget minus tail minus notice) characters of
the formatted text, cut back to a line boundary, followed by the notice
and the preserved last-50-lines tail. (Differs from `truncateStep` only
in reading the head budget as a character count, i.e. never negative.) -/
def specTruncated (F : Str) : Str :=
  cutToLastLine (F.take (availableChars F).toNat) ++ truncation_notice ++ tailText F

/-- The fixed header-plus-section overhead of the formatted output for a
given source path: the header block, the separating newline, the section
header line and the dash rule with their newlines. -/
def headerOverhead (p : Str) : Nat := 164 + (pathName p).length

/-- Source label used by the concrete test inputs below. -/
def cexPath : Str := ("plan.hdf").toList

/-- A line that the classifier marks as a task record (contains
"Computation Task", a tab and a colon). -/
def c1Text : Str := ("Computation Task 1:\t00:00:01").toList

/-- A general message followed by a task record carrying a value. -/
def c2Text : Str := ("Plan: Test\nComputation Task\tUnsteady Flow").toList

/-- Three lines in order: task record A, general message B, speed record C. -/
def c6Text : Str := ("Computation Task\tA\nPlanB: msgB\nComputation Speed\tC").toList

/-- A short colon-delimited line, repeated to build c5Text. -/
def c5Line : Str := ("a:b").toList

/-- Twenty colon-delimited three-character lines. -/
def c5Text : Str := nlStr.intercalate (List.replicate 20 c5Line)

/-- A single 45,000-character line: its formatted text exceeds the budget
while having at most 50 lines, so the whole text becomes the preserved
tail and the head budget goes negative. -/
def hugeLineText : Str := List.replicate 45000 'x'

/-- One 50-character line of the wide input. -/
def wideLine : Str := List.replicate 50 'x'

/-- Eight hundred 50-character lines: the formatted text exceeds the
budget and has well over 50 lines, so the head budget stays positive. -/
def wideText : Str := nlStr.intercalate (List.replicate 800 wideLine)

/-- The six parts (joined by newlines) of the formatted hugeLineText. -/
def hugePartsList : List Str :=
  [fromLabel ++ pathName cexPath, List.replicate 80 '=', [], gmHeaderLine, dashLine, hugeLineText]

/-- The header-and-section prefix of the formatted hugeLineText: all 173
characters before its single huge message line. -/
def hugePrefix : Str :=
  headerStr cexPath ++ nlStr ++ gmHeaderLine ++ nlStr ++ dashLine ++ nlStr

/-- The 805 parts (joined by newlines) of the formatted wideText. -/
def widePartsList : List Str :=
  [fromLabel ++ pathName cexPath, List.replicate 80 '=', [], gmHeaderLine, dashLine] ++
    List.replicate 800 wideLine

/-- The words "Computation Tasks" of the section header the spec expects. -/
def taskSectionPat : Str := ("Computation Tasks").toList

theorem intercalate_cons_of_ne_nil (sep a : Str) (r : List Str) (h : r ≠ []) :
    sep.intercalate (a :: r) = a ++ sep ++ sep.intercalate r := by
  cases r with
  | nil => exact absurd rfl h
  | cons b t =>
    simp [List.intercalate, List.intersperse_cons_cons, List.append_assoc]

theorem intercalate_single (sep a : Str) : sep.intercalate [a] = a := by
  simp [List.intercalate]

theorem intercalate_cons_flatten (d : Str) (rs : List Str) :
    nlStr.intercalate (d :: rs) = d ++ (rs.map (fun r => nlStr ++ r)).flatten := by
  induction rs generalizing d with
  | nil => simp [intercalate_single]
  | cons r rest ih =>
    rw [intercalate_cons_of_ne_nil _ _ _ (by simp), ih r]
    simp [List.append_assoc]

theorem formatLines_of_no_msgs (ls : List Str) (p : Str) (h : collectGeneral ls = []) :
    formatLines ls p = headerStr p := by
  simp only [formatLines, h, List.isEmpty_nil, if_pos, headerParts]
  rw [List.append_nil, intercalate_cons_of_ne_nil _ _ _ (by simp),
    intercalate_cons_of_ne_nil _ _ _ (by simp), intercalate_single]
  simp [headerStr, List.append_assoc]

theorem formatLines_of_msgs (ls : List Str) (p : Str) (h : ¬collectGeneral ls = []) :
    formatLines ls p = headerStr p ++ nlStr ++ generalSectionText (collectGeneral ls) := by
  have hne : ¬(collectGeneral ls).isEmpty = true := by
    simpa [List.isEmpty_iff] using h
  simp only [formatLines, if_neg hne, headerParts]
  rw [List.cons_append, List.cons_append, List.cons_append, List.nil_append,
    intercalate_cons_of_ne_nil _ _ _ (by simp),
    intercalate_cons_of_ne_nil _ _ _ (by simp),
    intercalate_cons_of_ne_nil _ _ _ (by simp),
    intercalate_cons_of_ne_nil _ _ _ (by simp),
    intercalate_cons_flatten]
  simp [headerStr, generalSectionText, List.append_assoc, List.map_map, Function.comp_def]

theorem collectGeneral_nil_line (rest : List Str) :
    collectGeneral ([] :: rest) = collectGeneral rest := by
  simp [collectGeneral, pyStrip]

theorem format_empty_input (p : Str) :
    format_compute_messages_local [] p = headerStr p := by
  have h1 : pySplitLines [] = [[]] := by
    simp [pySplitLines, show containsSub crlfPat [] = false from by decide]
  have h2 : collectGeneral [[]] = [] := by
    rw [collectGeneral_nil_line]; rfl
  rw [format_compute_messages_local, h1, formatLines_of_no_msgs _ _ h2]

/-- C8: the compute-message operation never raises: the formatting path is
a total function of its inputs, the component boundary converts any
internal error e into the single line "Error reading compute messages: e"
rather than propagating it, and the empty-string input yields the header
block only (label line and separator rule), with no section bodies
(unchanged by the size check whenever the header itself fits the budget). -/
theorem c8_fail_soft (p e : Str) :
    format_compute_messages_local [] p = headerStr p ∧
    ((headerStr p).length ≤ max_chars → get_compute_messages_local [] p = headerStr p) ∧
    handleComputeMessages (Except.ok (format_compute_messages_local [] p)) = headerStr p ∧
    handleComputeMessages (Except.error e) = errPrefix ++ e := by
  have hf := format_empty_input p
  refine ⟨hf, ?_, by rw [handleComputeMessages, hf], rfl⟩
  intro hlen
  rw [get_compute_messages_local, hf, truncateStep, if_neg (by omega)]

theorem c8_fail_soft_witness :
    format_compute_messages_local [] cexPath = headerStr cexPath ∧
    get_compute_messages_local [] cexPath = headerStr cexPath ∧
    handleComputeMessages (Except.ok (format_compute_messages_local [] cexPath)) =
      headerStr cexPath ∧
    handleComputeMessages (Except.error (("boom").toList)) =
      errPrefix ++ ("boom").toList := by
  obtain ⟨h1, h2, h3, h4⟩ := c8_fail_soft cexPath (("boom").toList)
  exact ⟨h1, h2 (by decide), h3, h4⟩

/-- C9: the formatter and the truncating operation are pure functions, so
two calls with identical raw text and identical source label return
byte-identical strings. -/
theorem c9_deterministic (t1 p1 t2 p2 : Str) (ht : t1 = t2) (hp : p1 = p2) :
    format_compute_messages_local t1 p1 = format_compute_messages_local t2 p2 ∧
    get_compute_messages_local t1 p1 = get_compute_messages_local t2 p2 := by
  subst ht; subst hp; exact ⟨rfl, rfl⟩

theorem c9_deterministic_witness :
    format_compute_messages_local c2Text cexPath = format_compute_messages_local c2Text cexPath ∧
    get_compute_messages_local c2Text cexPath = get_compute_messages_local c2Text cexPath :=
  c9_deterministic c2Text cexPath c2Text cexPath rfl rfl

theorem marker_nil : isMarkerLine [] = false := by decide

theorem marker_of_empty (s : Str) (h : s.isEmpty = true) : isMarkerLine s = false := by
  rw [List.isEmpty_iff] at h
  subst h
  decide

theorem collectGeneral_characterization (ls : List Str) :
    collectGeneral ls =
      ((ls.takeWhile (fun l => !(isMarkerLine (pyStrip l)))).filterMap
        (fun l => if (pyStrip l).isEmpty then none else some (pyStrip l))) := by
  induction ls with
  | nil => rfl
  | cons l rest ih =>
    by_cases h1 : (pyStrip l).isEmpty
    · have hm : isMarkerLine (pyStrip l) = false := marker_of_empty _ h1
      have h1e : pyStrip l = [] := List.isEmpty_iff.mp h1
      simp [collectGeneral, h1, hm, h1e, marker_nil, List.takeWhile_cons, List.filterMap_cons, ih]
    · by_cases h2 : isMarkerLine (pyStrip l)
      · simp [collectGeneral, h1, h2, List.takeWhile_cons]
      · simp only [List.takeWhile_cons, h2, Bool.not_false, if_pos, List.filterMap_cons]
        simp [collectGeneral, h1, h2, ih]

theorem collectGeneral_takeWhile (ls : List Str) :
    collectGeneral (ls.takeWhile (fun l => !(isMarkerLine (pyStrip l)))) = collectGeneral ls := by
  rw [collectGeneral_characterization, collectGeneral_characterization, List.takeWhile_takeWhile]
  simp

theorem collectGeneral_stops (pre : List Str) (m : Str) (post : List Str)
    (h1 : ∀ l ∈ pre, isMarkerLine (pyStrip l) = false)
    (h2 : isMarkerLine (pyStrip m) = true) :
    collectGeneral (pre ++ m :: post) = collectGeneral pre := by
  induction pre with
  | nil =>
    have hne : (pyStrip m).isEmpty = false := by
      cases he : (pyStrip m).isEmpty
      · rfl
      · rw [marker_of_empty _ he] at h2
        exact absurd h2 (by simp)
    simp [collectGeneral, hne, h2]
  | cons a pre ih =>
    have ha := h1 a (List.mem_cons_self a pre)
    have hpre : ∀ l ∈ pre, isMarkerLine (pyStrip l) = false :=
      fun l hl => h1 l (List.mem_cons_of_mem a hl)
    by_cases hae : (pyStrip a).isEmpty
    · simp [collectGeneral, hae, ih hpre]
    · simp [collectGeneral, hae, ha, ih hpre]

theorem collectGeneral_sublist (ls : List Str) :
    (collectGeneral ls).Sublist (ls.map pyStrip) := by
  induction ls with
  | nil => simp [collectGeneral]
  | cons l rest ih =>
    by_cases h1 : (pyStrip l).isEmpty
    · simpa [collectGeneral, h1] using ih.cons (pyStrip l)
    · by_cases h2 : isMarkerLine (pyStrip l)
      · simp [collectGeneral, h1, h2]
      · simpa [collectGeneral, h1, h2] using ih.cons₂ (pyStrip l)

/-- C10: processing stops at the first stripped line containing
"Computation Task" (or "Computation Speed") together with a tab: the
output only depends on the lines strictly before that line, and the
output is always just the header, optionally followed by the single
"General Messages" block — never a "Computation Tasks" or "Computation
Speed" section. -/
theorem c10_processing_stops (text p : Str) :
    format_compute_messages_local text p =
      formatLines ((pySplitLines text).takeWhile (fun l => !(isMarkerLine (pyStrip l)))) p ∧
    (format_compute_messages_local text p = headerStr p ∨
      format_compute_messages_local text p =
        headerStr p ++ nlStr ++ generalSectionText (generalMessagesOf text)) := by
  constructor
  · rw [format_compute_messages_local]
    unfold formatLines
    rw [collectGeneral_takeWhile]
  · by_cases h : generalMessagesOf text = []
    · exact Or.inl (formatLines_of_no_msgs _ _ h)
    · exact Or.inr (formatLines_of_msgs _ _ h)

/-- C1 (amended): the formatted output is the header (source label line
plus the 80-character separator rule), followed by a "General Messages"
section exactly when some non-blank general message precedes the first
task/speed marker line; no "Computation Tasks" or "Computation Speed"
table is ever emitted, because the formatter stops at the first such
line. An empty section is never emitted. -/
theorem c1_section_structure (text p : Str) :
    (generalMessagesOf text = [] → format_compute_messages_local text p = headerStr p) ∧
    (generalMessagesOf text ≠ [] →
      format_compute_messages_local text p =
        headerStr p ++ nlStr ++ generalSectionText (generalMessagesOf text)) :=
  ⟨fun h => formatLines_of_no_msgs _ _ h, fun h => formatLines_of_msgs _ _ h⟩

theorem c1_section_structure_witness :
    format_compute_messages_local c1Text cexPath = headerStr cexPath ∧
    format_compute_messages_local c2Text cexPath =
      headerStr cexPath ++ nlStr ++ generalSectionText (generalMessagesOf c2Text) :=
  ⟨(c1_section_structure c1Text cexPath).1 (by decide),
   (c1_section_structure c2Text cexPath).2 (by decide)⟩

theorem c1_cex_no_task_table :
    isTaskLine (pyStrip c1Text) = true ∧
    format_compute_messages_local c1Text cexPath = headerStr cexPath ∧
    containsSub taskSectionPat (format_compute_messages_local c1Text cexPath) = false :=
  ⟨by decide, by decide, by decide⟩

/-- C2 (amended): a line whose stripped text contains "Computation Task"
and a tab character terminates processing: it is not treated as a general
message (even when it also contains a colon) and it is not rendered at
all — the output equals the output for the lines preceding it alone. -/
theorem c2_task_line_terminates (pre : List Str) (m : Str) (post : List Str) (p : Str)
    (h1 : ∀ l ∈ pre, isMarkerLine (pyStrip l) = false)
    (h2 : isTaskLine (pyStrip m) = true) :
    collectGeneral (pre ++ m :: post) = collectGeneral pre ∧
    formatLines (pre ++ m :: post) p = formatLines pre p := by
  have hc := collectGeneral_stops pre m post h1 (by simp [isMarkerLine, h2])
  refine ⟨hc, ?_⟩
  unfold formatLines
  rw [hc]

theorem c2_task_line_terminates_witness :
    collectGeneral ([("Plan: Test").toList] ++
        ("Computation Task 1:\t00:00:01").toList :: [("After").toList]) =
      collectGeneral [("Plan: Test").toList] ∧
    formatLines ([("Plan: Test").toList] ++
        ("Computation Task 1:\t00:00:01").toList :: [("After").toList]) cexPath =
      formatLines [("Plan: Test").toList] cexPath :=
  c2_task_line_terminates _ _ _ _ (by decide) (by decide)

theorem c2_cex_task_line_dropped :
    pySplitLines c2Text =
      [("Plan: Test").toList, ("Computation Task\tUnsteady Flow").toList] ∧
    isTaskLine (pyStrip (("Computation Task\tUnsteady Flow").toList)) = true ∧
    containsSub (("Unsteady").toList) (format_compute_messages_local c2Text cexPath) = false :=
  ⟨by decide, by decide, by decide⟩

/-- C6 (amended): the relative order of the general-message lines is
preserved — the collected messages are exactly the non-blank stripped
lines preceding the first task/speed marker line, in input order (an
order-preserving subsequence of the stripped input lines); marker lines
and everything after them are dropped, so no task or speed line is
rendered anywhere. -/
theorem c6_order_preservation (text : Str) :
    generalMessagesOf text =
      ((pySplitLines text).takeWhile (fun l => !(isMarkerLine (pyStrip l)))).filterMap
        (fun l => if (pyStrip l).isEmpty then none else some (pyStrip l)) ∧
    (generalMessagesOf text).Sublist ((pySplitLines text).map pyStrip) :=
  ⟨collectGeneral_characterization _, collectGeneral_sublist _⟩

theorem contains_false_of_not_mem (c : Char) (l : Str) (h : c ∉ l) : l.contains c = false := by
  simpa [List.contains, List.elem_eq_mem] using h

theorem mem_of_contains_true (c : Char) (l : Str) (h : l.contains c = true) : c ∈ l := by
  simpa [List.contains, List.elem_eq_mem] using h

theorem breakAtFirst_append (k v : Str) (hk : ':' ∉ k) :
    breakAtFirst ':' (k ++ [':'] ++ v) = some (k, v) := by
  induction k with
  | nil => simp [breakAtFirst]
  | cons c t ih =>
    have hc : ¬c = ':' := fun h => hk (h ▸ List.mem_cons_self c t)
    have ht : ':' ∉ t := fun h => hk (List.mem_cons_of_mem c h)
    have ih2 : breakAtFirst ':' (t ++ ':' :: v) = some (t, v) := by
      simpa [List.append_assoc] using ih ht
    simp [breakAtFirst, hc, ih2]

theorem breakAtFirst_eq_some (m k v : Str) (h : breakAtFirst ':' m = some (k, v)) :
    m = k ++ [':'] ++ v ∧ ':' ∉ k := by
  induction m generalizing k v with
  | nil => simp [breakAtFirst] at h
  | cons c t ih =>
    by_cases hc : c = ':'
    · subst hc
      simp [breakAtFirst] at h
      obtain ⟨hk, hv⟩ := h
      subst hk; subst hv
      simp
    · simp only [breakAtFirst, if_neg hc] at h
      cases hb : breakAtFirst ':' t with
      | none => rw [hb] at h; exact absurd h (by simp)
      | some ab =>
        obtain ⟨a, b⟩ := ab
        rw [hb] at h
        simp at h
        obtain ⟨hk, hv⟩ := h
        obtain ⟨hm, ha⟩ := ih a b hb
        subst hk; subst hv
        constructor
        · rw [hm]; simp
        · intro hmem
          rcases List.mem_cons.mp hmem with h1 | h1
          · exact hc h1.symm
          · exact ha h1

/-- C7: a general message containing a colon and not beginning with
"http" is emitted split at its FIRST colon: the key (stripped, padded on
the right to column width 40) then " : " then the stripped value; a
message with no colon, or one that begins with "http", is emitted
verbatim, unsplit. -/
theorem c7_general_message_rendering (msg k v : Str) :
    (msg = k ++ [':'] ++ v → ':' ∉ k → List.isPrefixOf httpPat msg = false →
      renderGeneral msg = ljust 40 (pyStrip k) ++ colonSep ++ pyStrip v) ∧
    (msg.contains ':' = false → renderGeneral msg = msg) ∧
    (List.isPrefixOf httpPat msg = true → renderGeneral msg = msg) := by
  refine ⟨?_, ?_, ?_⟩
  · intro hmsg hk hhttp
    subst hmsg
    have hb := breakAtFirst_append k v hk
    have hcont : (k ++ [':'] ++ v).contains ':' = true := by
      simp [List.contains, List.elem_eq_mem]
    rw [renderGeneral, if_pos (by rw [hcont, hhttp]; rfl), hb]
  · intro h
    rw [renderGeneral, if_neg (by rw [h]; simp)]
  · intro h
    rw [renderGeneral, if_neg (by rw [h]; simp)]

theorem c7_general_message_rendering_witness :
    (renderGeneral (("Plan Name: Test").toList) =
      ljust 40 (pyStrip (("Plan Name").toList)) ++ colonSep ++ pyStrip ((" Test").toList)) ∧
    (renderGeneral (("no delimiter here").toList) = ("no delimiter here").toList) ∧
    (renderGeneral (("http://host:8080/x").toList) = ("http://host:8080/x").toList) :=
  ⟨(c7_general_message_rendering (("Plan Name: Test").toList) (("Plan Name").toList)
      ((" Test").toList)).1 (by decide) (by decide) (by decide),
   (c7_general_message_rendering (("no delimiter here").toList) [] []).2.1 (by decide),
   (c7_general_message_rendering (("http://host:8080/x").toList) [] []).2.2 (by decide)⟩

theorem c6_cex_lines_absent :
    pySplitLines c6Text =
      [("Computation Task\tA").toList, ("PlanB: msgB").toList, ("Computation Speed\tC").toList] ∧
    format_compute_messages_local c6Text cexPath = headerStr cexPath ∧
    containsSub (("msgB").toList) (format_compute_messages_local c6Text cexPath) = false :=
  ⟨by decide, by decide, by decide⟩

theorem pyStrip_length_le (s : Str) : (pyStrip s).length ≤ s.length := by
  have h1 : (s.dropWhile isPyWhitespace).length ≤ s.length :=
    (List.dropWhile_sublist _).length_le
  have h2 : ((s.dropWhile isPyWhitespace).reverse.dropWhile isPyWhitespace).length ≤
      (s.dropWhile isPyWhitespace).reverse.length :=
    (List.dropWhile_sublist _).length_le
  rw [pyStrip, List.length_reverse]
  rw [List.length_reverse] at h2
  omega

theorem renderGeneral_length_le (m : Str) : (renderGeneral m).length ≤ m.length + 42 := by
  rw [renderGeneral]
  by_cases hc : (m.contains ':' && !(List.isPrefixOf httpPat m)) = true
  · rw [if_pos hc]
    cases hb : breakAtFirst ':' m with
    | none => simp
    | some kv =>
      obtain ⟨k, v⟩ := kv
      obtain ⟨hm, -⟩ := breakAtFirst_eq_some m k v hb
      have hsep : colonSep.length = 3 := by decide
      have hk := pyStrip_length_le k
      have hv := pyStrip_length_le v
      rw [hm]
      simp only [ljust, List.length_append, List.length_replicate, List.length_cons,
        List.length_nil, hsep]
      omega
  · rw [if_neg hc]
    omega

theorem sum_collect_le (ls : List Str) :
    ((collectGeneral ls).map List.length).sum ≤ (ls.map List.length).sum := by
  induction ls with
  | nil => simp [collectGeneral]
  | cons l rest ih =>
    by_cases h1 : (pyStrip l).isEmpty
    · simp only [List.map_cons, List.sum_cons]
      rw [show collectGeneral (l :: rest) = collectGeneral rest by simp [collectGeneral, h1]]
      omega
    · by_cases h2 : isMarkerLine (pyStrip l)
      · simp [collectGeneral, h1, h2]
      · have hs := pyStrip_length_le l
        rw [show collectGeneral (l :: rest) = pyStrip l :: collectGeneral rest by
          simp [collectGeneral, h1, h2]]
        simp only [List.map_cons, List.sum_cons]
        omega

theorem nl_singleton : nlStr = ['\n'] := by decide

theorem length_intercalate_nl (a : Str) (r : List Str) :
    (nlStr.intercalate (a :: r)).length = ((a :: r).map List.length).sum + r.length := by
  induction r generalizing a with
  | nil => simp [intercalate_single]
  | cons b t ih =>
    rw [intercalate_cons_of_ne_nil _ _ _ (by simp)]
    have hnl : nlStr.length = 1 := by decide
    simp only [List.length_append, hnl, ih b, List.map_cons, List.sum_cons, List.length_cons]
    omega

theorem sum_splitOn_le (t : Str) : ((List.splitOn '\n' t).map List.length).sum ≤ t.length := by
  have h := List.intercalate_splitOn t '\n'
  cases hs : List.splitOn '\n' t with
  | nil => simp
  | cons a r =>
    have hlen : (nlStr.intercalate (a :: r)).length = t.length := by
      rw [nl_singleton, ← hs, h]
    rw [length_intercalate_nl] at hlen
    omega

theorem sum_splitOn2_le (a b : Char) : (t : Str) →
    ((splitOn2 a b t).map List.length).sum ≤ t.length
  | [] => by simp [splitOn2]
  | [c] => by simp [splitOn2]
  | c :: d :: t => by
    rw [splitOn2]
    by_cases h : (c = a && d = b) = true
    · rw [if_pos h]
      have ih := sum_splitOn2_le a b t
      simp only [List.map_cons, List.sum_cons, List.length_cons, List.length_nil]
      omega
    · rw [if_neg h]
      have ih := sum_splitOn2_le a b (d :: t)
      cases hs : splitOn2 a b (d :: t) with
      | nil => simp
      | cons x r =>
        rw [hs] at ih
        simp only [List.map_cons, List.sum_cons, List.length_cons] at ih ⊢
        omega
termination_by t => t.length

theorem sum_lines_le (t : Str) : ((pySplitLines t).map List.length).sum ≤ t.length := by
  rw [pySplitLines]
  by_cases h : containsSub crlfPat t = true
  · rw [if_pos h]
    exact sum_splitOn2_le _ _ t
  · rw [if_neg h]
    exact sum_splitOn_le t

theorem sum_map_add_const (l : List Str) (f : Str → Nat) (c : Nat) :
    (l.map (fun m => f m + c)).sum = (l.map f).sum + c * l.length := by
  induction l with
  | nil => simp
  | cons x r ih =>
    simp only [List.map_cons, List.sum_cons, List.length_cons, ih]
    ring

theorem headerStr_length (p : Str) : (headerStr p).length = 105 + (pathName p).length := by
  have h23 : fromLabel.length = 23 := by decide
  have hnl : nlStr.length = 1 := by decide
  simp only [headerStr, List.length_append, List.length_replicate, h23, hnl]
  omega

theorem generalSectionText_length (msgs : List Str) :
    (generalSectionText msgs).length =
      58 + (msgs.map (fun m => 1 + (renderGeneral m).length)).sum := by
  have h17 : gmHeaderLine.length = 17 := by decide
  have hnl : nlStr.length = 1 := by decide
  have h40 : dashLine.length = 40 := by simp [dashLine]
  simp only [generalSectionText, List.length_append, h17, hnl, h40, List.length_flatten,
    List.map_map, Function.comp_def]

/-- C5 (amended): for every input, the formatted output length is at most
the input length plus the fixed header/section overhead plus 43 extra
characters per collected general message (the colon-splitting pads keys
to a 40-character column, so the per-line growth is input-dependent, up
to 42 characters plus the rejoining newline); and whenever the formatted
output is within the 40,000-character budget, the size check returns it
unchanged, appending no truncation notice. -/
theorem c5_length_bound (text p : Str) :
    (format_compute_messages_local text p).length ≤
      text.length + headerOverhead p + 43 * (generalMessagesOf text).length ∧
    ((format_compute_messages_local text p).length ≤ max_chars →
      get_compute_messages_local text p = format_compute_messages_local text p) := by
  constructor
  · by_cases h : generalMessagesOf text = []
    · rw [(c1_section_structure text p).1 h, headerStr_length, headerOverhead]
      omega
    · rw [(c1_section_structure text p).2 h]
      have hnl : nlStr.length = 1 := by decide
      have hsum1 : ((generalMessagesOf text).map (fun m => 1 + (renderGeneral m).length)).sum ≤
          ((generalMessagesOf text).map (fun m => m.length + 43)).sum := by
        apply List.sum_le_sum
        intro m hm
        have := renderGeneral_length_le m
        omega
      have hsum2 := sum_map_add_const (generalMessagesOf text) List.length 43
      have hsum3 : ((generalMessagesOf text).map List.length).sum ≤ text.length := by
        calc ((generalMessagesOf text).map List.length).sum
            ≤ ((pySplitLines text).map List.length).sum := sum_collect_le _
          _ ≤ text.length := sum_lines_le text
      simp only [List.length_append, headerStr_length, hnl, generalSectionText_length,
        headerOverhead]
      omega
  · intro h
    rw [get_compute_messages_local, truncateStep, if_neg (by omega)]

set_option maxRecDepth 100000 in
theorem c5_length_bound_witness :
    (format_compute_messages_local c2Text cexPath).length ≤
      c2Text.length + headerOverhead cexPath + 43 * (generalMessagesOf c2Text).length ∧
    get_compute_messages_local c2Text cexPath = format_compute_messages_local c2Text cexPath :=
  ⟨(c5_length_bound c2Text cexPath).1, (c5_length_bound c2Text cexPath).2 (by decide)⟩

theorem dropWhile_eq_self_of (p : Char → Bool) (l : Str) (h : ∀ c ∈ l, p c = false) :
    l.dropWhile p = l := by
  cases l with
  | nil => rfl
  | cons a t => simp [List.dropWhile_cons, h a (List.mem_cons_self a t)]

theorem pyStrip_eq_self_of (l : Str) (h : ∀ c ∈ l, isPyWhitespace c = false) :
    pyStrip l = l := by
  rw [pyStrip, dropWhile_eq_self_of _ _ h,
    dropWhile_eq_self_of _ _ (fun c hc => h c (List.mem_reverse.mp hc)), List.reverse_reverse]

theorem mem_of_containsSub (c : Char) (pat s : Str) (h : containsSub (c :: pat) s = true) :
    c ∈ s := by
  induction s with
  | nil => simp [containsSub, List.isPrefixOf] at h
  | cons a t ih =>
    rw [containsSub, Bool.or_eq_true] at h
    rcases h with h | h
    · obtain ⟨w, hw⟩ := List.isPrefixOf_iff_prefix.mp h
      rw [List.cons_append] at hw
      rw [← (List.cons.injEq c (pat ++ w) a t).mp hw |>.1]
      exact List.mem_cons_self c t
    · exact List.mem_cons_of_mem a (ih h)

theorem not_marker_of_no_C (l : Str) (h : 'C' ∉ l) : isMarkerLine l = false := by
  cases hm : isMarkerLine l with
  | false => rfl
  | true =>
    exfalso
    rw [isMarkerLine, Bool.or_eq_true, isTaskLine, isSpeedLine,
      Bool.and_eq_true, Bool.and_eq_true] at hm
    have htask : taskPat = 'C' :: ("omputation Task").toList := by decide
    have hspeed : speedPat = 'C' :: ("omputation Speed").toList := by decide
    rcases hm with ⟨hc, -⟩ | ⟨hc, -⟩
    · rw [htask] at hc
      exact h (mem_of_containsSub _ _ _ hc)
    · rw [hspeed] at hc
      exact h (mem_of_containsSub _ _ _ hc)

theorem mem_xline (c : Char) (n : Nat) (h : c ∈ List.replicate n 'x') : c = 'x' :=
  (List.mem_replicate.mp h).2

theorem pyStrip_xline (n : Nat) : pyStrip (List.replicate n 'x') = List.replicate n 'x' :=
  pyStrip_eq_self_of _ (fun c hc => by rw [mem_xline c n hc]; rfl)

theorem marker_xline (n : Nat) : isMarkerLine (List.replicate n 'x') = false :=
  not_marker_of_no_C _ (fun h => by simpa using mem_xline _ n h)

theorem renderGeneral_xline (n : Nat) :
    renderGeneral (List.replicate n 'x') = List.replicate n 'x' := by
  have hc : (List.replicate n 'x').contains ':' = false :=
    contains_false_of_not_mem _ _ (fun h => by simpa using mem_xline _ n h)
  rw [renderGeneral, if_neg (by rw [hc]; simp)]

theorem collectGeneral_xlines (k n : Nat) (hn : n ≠ 0) :
    collectGeneral (List.replicate k (List.replicate n 'x')) =
      List.replicate k (List.replicate n 'x') := by
  induction k with
  | zero => rfl
  | succ k ih =>
    rw [List.replicate_succ, collectGeneral]
    simp only [pyStrip_xline, marker_xline]
    rw [if_neg (by simp [List.isEmpty_iff, hn]), if_neg (by simp)]
    rw [ih]

theorem mem_intercalate_nl (c : Char) (ls : List Str) (h : c ∈ nlStr.intercalate ls) :
    c = '\n' ∨ ∃ l ∈ ls, c ∈ l := by
  induction ls with
  | nil => simp [List.intercalate] at h
  | cons a r ih =>
    cases r with
    | nil =>
      rw [intercalate_single] at h
      exact Or.inr ⟨a, List.mem_cons_self a [], h⟩
    | cons b t =>
      rw [intercalate_cons_of_ne_nil _ _ _ (by simp)] at h
      rcases List.mem_append.mp h with h1 | h1
      · rcases List.mem_append.mp h1 with h2 | h2
        · exact Or.inr ⟨a, List.mem_cons_self a _, h2⟩
        · rw [nl_singleton] at h2
          exact Or.inl (by simpa using h2)
      · rcases ih h1 with h2 | ⟨l, hl, hc⟩
        · exact Or.inl h2
        · exact Or.inr ⟨l, List.mem_cons_of_mem a hl, hc⟩

theorem no_crlf_of_no_cr (t : Str) (h : '\r' ∉ t) : containsSub crlfPat t = false := by
  cases hc : containsSub crlfPat t with
  | false => rfl
  | true =>
    exfalso
    have hcr : crlfPat = '\r' :: ['\n'] := by decide
    rw [hcr] at hc
    exact h (mem_of_containsSub _ _ _ hc)

theorem splitOn_single_of_no_nl (l : Str) (h : '\n' ∉ l) : List.splitOn '\n' l = [l] := by
  rw [List.splitOn]
  exact List.splitOnP_eq_single _ _ (fun x hx => by
    simp only [beq_iff_eq]
    exact fun he => h (he ▸ hx))

theorem replicate_line_ne_nil (n : Nat) (h : n ≠ 0) (a : Str) : List.replicate n a ≠ [] := by
  intro he
  have := congrArg List.length he
  rw [List.length_replicate, List.length_nil] at this
  exact h this

theorem wide_lines : pySplitLines wideText = List.replicate 800 wideLine := by
  have hnocr : '\r' ∉ wideText := by
    intro h
    rcases mem_intercalate_nl _ _ h with h1 | ⟨l, hl, hc⟩
    · simp at h1
    · rw [List.eq_of_mem_replicate hl, wideLine] at hc
      have := mem_xline _ _ hc
      simp at this
  rw [pySplitLines, if_neg (by rw [no_crlf_of_no_cr _ hnocr]; simp), wideText, nl_singleton]
  refine List.splitOn_intercalate _ '\n' ?_ (replicate_line_ne_nil 800 (by omega) _)
  intro l hl
  rw [List.eq_of_mem_replicate hl, wideLine]
  intro hmem
  simpa using mem_xline _ _ hmem

theorem wide_format :
    format_compute_messages_local wideText cexPath = nlStr.intercalate widePartsList := by
  rw [format_compute_messages_local, wide_lines, formatLines]
  rw [show collectGeneral (List.replicate 800 wideLine) = List.replicate 800 wideLine from
    show collectGeneral (List.replicate 800 (List.replicate 50 'x')) =
        List.replicate 800 (List.replicate 50 'x') from
      collectGeneral_xlines 800 50 (by omega)]
  rw [if_neg (by
    rw [List.isEmpty_iff]
    exact replicate_line_ne_nil 800 (by omega) _)]
  rw [List.map_replicate,
    show renderGeneral wideLine = wideLine from renderGeneral_xline 50]
  rw [widePartsList, headerParts]
  rfl

theorem wide_splitOn : List.splitOn '\n' (nlStr.intercalate widePartsList) = widePartsList := by
  rw [nl_singleton]
  refine List.splitOn_intercalate _ '\n' ?_ (by rw [widePartsList]; exact List.cons_ne_nil _ _)
  intro l hl
  rw [widePartsList] at hl
  rcases List.mem_append.mp hl with h5 | hrep
  · simp only [List.mem_cons, List.not_mem_nil, or_false] at h5
    rcases h5 with h | h | h | h | h
    · subst h; decide
    · subst h; decide
    · subst h; decide
    · subst h; decide
    · subst h; decide
  · rw [List.eq_of_mem_replicate hrep, wideLine]
    intro hm
    simpa using mem_xline _ _ hm

theorem wide_length : (nlStr.intercalate widePartsList).length = 40972 := by
  rw [widePartsList,
    show ([fromLabel ++ pathName cexPath, List.replicate 80 '=', [], gmHeaderLine, dashLine] ++
        List.replicate 800 wideLine) =
      (fromLabel ++ pathName cexPath) ::
        ([List.replicate 80 '=', [], gmHeaderLine, dashLine] ++ List.replicate 800 wideLine)
      from rfl,
    length_intercalate_nl]
  have hp1 : (fromLabel ++ pathName cexPath).length = 31 := by decide
  have h17 : gmHeaderLine.length = 17 := by decide
  have hwl : wideLine.length = 50 := by rw [wideLine, List.length_replicate]
  simp only [List.map_cons, List.map_append, List.map_replicate, List.map_nil, List.sum_cons,
    List.sum_append, List.sum_replicate, List.sum_nil, List.length_append, List.length_cons,
    List.length_replicate, List.length_nil, hp1, h17, hwl, smul_eq_mul, dashLine]
  omega

theorem wide_pre_decomp :
    widePartsList =
      ([fromLabel ++ pathName cexPath, List.replicate 80 '=', [], gmHeaderLine, dashLine] ++
        List.replicate 750 wideLine) ++ List.replicate 50 wideLine := by
  rw [widePartsList, show (800 : Nat) = 750 + 50 from rfl, List.replicate_add,
    List.append_assoc]

theorem last50_eq_drop (ls : List Str) : last50Lines ls = ls.drop (ls.length - 50) := by
  rw [last50Lines]
  by_cases h : ls.length > 50
  · rw [if_pos h]
  · rw [if_neg h, Nat.sub_eq_zero_of_le (by omega), List.drop_zero]

theorem wide_tail :
    tailText (nlStr.intercalate widePartsList) = nlStr.intercalate (List.replicate 50 wideLine) := by
  have hlen : widePartsList.length = 805 := by
    rw [widePartsList, List.length_append, List.length_replicate]
    decide
  have hpre : ([fromLabel ++ pathName cexPath, List.replicate 80 '=', [], gmHeaderLine,
      dashLine] ++ List.replicate 750 wideLine).length = 755 := by
    rw [List.length_append, List.length_replicate]
    decide
  rw [tailText, wide_splitOn, last50_eq_drop, hlen,
    show (805 : Nat) - 50 = 755 from rfl, wide_pre_decomp, ← hpre, List.drop_left]

theorem tail50_length : (nlStr.intercalate (List.replicate 50 wideLine)).length = 2549 := by
  rw [show List.replicate 50 wideLine = wideLine :: List.replicate 49 wideLine from
    by rw [← List.replicate_succ], length_intercalate_nl]
  have hwl : wideLine.length = 50 := by rw [wideLine, List.length_replicate]
  simp only [List.map_cons, List.map_replicate, List.sum_cons, List.sum_replicate,
    List.length_replicate, hwl, smul_eq_mul]

theorem wide_avail : availableChars (nlStr.intercalate widePartsList) = 37358 := by
  rw [availableChars, wide_tail, tail50_length,
    show truncation_notice.length = 93 from by decide]
  decide

theorem intercalate_drop_suffix (k : Nat) (ls : List Str) :
    (nlStr.intercalate (ls.drop k)).IsSuffix (nlStr.intercalate ls) := by
  induction ls generalizing k with
  | nil => simp
  | cons a t ih =>
    cases k with
    | zero => simp
    | succ k =>
      rw [List.drop_succ_cons]
      refine (ih k).trans ?_
      cases t with
      | nil => exact List.nil_suffix
      | cons b t2 =>
        have h := intercalate_cons_of_ne_nil nlStr a (b :: t2) (List.cons_ne_nil b t2)
        rw [h]
        exact List.suffix_append _ _

/-- C3 (amended): for every input whose formatted text exceeds the
budget, the returned output is head, then the truncation notice, then
the last-50-lines tail, where the tail is rebuilt verbatim from the last
50 lines of the formatted text (all its lines when it has at most 50)
and is a suffix of the formatted text, and — provided the tail plus the
notice fit within the budget, so that the remaining head budget is
non-negative — the head is the first (budget minus tail size minus
notice size) characters of the formatted text, cut back to its last
newline when one occurs at positive index. (When the head budget is
negative, the Python negative slice keeps all but the last few
characters instead of taking nothing.) -/
theorem c3_truncation_structure (text p : Str)
    (h1 : max_chars < (format_compute_messages_local text p).length)
    (h2 : 0 ≤ availableChars (format_compute_messages_local text p)) :
    get_compute_messages_local text p =
      specTruncated (format_compute_messages_local text p) ∧
    (tailText (format_compute_messages_local text p)).IsSuffix
      (format_compute_messages_local text p) := by
  constructor
  · rw [get_compute_messages_local, truncateStep, if_pos h1, specTruncated, pyTake,
      if_neg (by omega)]
  · rw [tailText, last50_eq_drop]
    have heq : nlStr.intercalate
        (List.splitOn '\n' (format_compute_messages_local text p)) =
        format_compute_messages_local text p := by
      rw [nl_singleton]
      exact List.intercalate_splitOn _ '\n'
    conv => rhs; rw [← heq]
    exact intercalate_drop_suffix _ _

theorem c3_truncation_structure_witness :
    get_compute_messages_local wideText cexPath =
      specTruncated (format_compute_messages_local wideText cexPath) ∧
    (tailText (format_compute_messages_local wideText cexPath)).IsSuffix
      (format_compute_messages_local wideText cexPath) :=
  c3_truncation_structure wideText cexPath
    (by rw [wide_format, wide_length]; decide)
    (by rw [wide_format, wide_avail]; decide)

theorem huge_lines : pySplitLines hugeLineText = [hugeLineText] := by
  have hnocr : '\r' ∉ hugeLineText := fun h => by simpa using mem_xline _ 45000 h
  rw [pySplitLines, if_neg (by rw [no_crlf_of_no_cr _ hnocr]; simp)]
  exact splitOn_single_of_no_nl _ (fun h => by simpa using mem_xline _ 45000 h)

theorem huge_format :
    format_compute_messages_local hugeLineText cexPath = nlStr.intercalate hugePartsList := by
  rw [format_compute_messages_local, huge_lines, formatLines]
  rw [show collectGeneral [hugeLineText] = [hugeLineText] from
    show collectGeneral (List.replicate 1 (List.replicate 45000 'x')) =
        List.replicate 1 (List.replicate 45000 'x') from
      collectGeneral_xlines 1 45000 (by omega)]
  rw [if_neg (by rw [List.isEmpty_iff]; exact List.cons_ne_nil _ _)]
  rw [show List.map renderGeneral [hugeLineText] = [hugeLineText] from by
    rw [List.map_cons, List.map_nil,
      show renderGeneral hugeLineText = hugeLineText from renderGeneral_xline 45000]]
  rw [hugePartsList, headerParts]
  rfl

set_option maxRecDepth 100000 in
theorem huge_splitOn : List.splitOn '\n' (nlStr.intercalate hugePartsList) = hugePartsList := by
  rw [nl_singleton]
  refine List.splitOn_intercalate _ '\n' ?_ (by rw [hugePartsList]; exact List.cons_ne_nil _ _)
  intro l hl
  rw [hugePartsList] at hl
  simp only [List.mem_cons, List.not_mem_nil, or_false] at hl
  rcases hl with h | h | h | h | h | h
  · subst h; decide
  · subst h; decide
  · subst h; decide
  · subst h; decide
  · subst h; decide
  · subst h
    intro hm
    simpa using mem_xline _ 45000 hm

theorem hugeLine_length : hugeLineText.length = 45000 := by
  rw [show hugeLineText = List.replicate 45000 'x' from rfl, List.length_replicate]

theorem huge_length : (nlStr.intercalate hugePartsList).length = 45173 := by
  have h := length_intercalate_nl (fromLabel ++ pathName cexPath)
    [List.replicate 80 '=', [], gmHeaderLine, dashLine, hugeLineText]
  rw [hugePartsList, h]
  have hp1 : (fromLabel ++ pathName cexPath).length = 31 := by decide
  have h17 : gmHeaderLine.length = 17 := by decide
  have h40 : dashLine.length = 40 := by
    rw [show dashLine = List.replicate 40 '-' from rfl, List.length_replicate]
  rw [List.map_cons, List.map_cons, List.map_cons, List.map_cons, List.map_cons, List.map_cons,
    List.map_nil, List.sum_cons, List.sum_cons, List.sum_cons, List.sum_cons, List.sum_cons,
    List.sum_cons, List.sum_nil, hp1, h17, h40, hugeLine_length, List.length_replicate]
  rfl

theorem huge_tail : tailText (nlStr.intercalate hugePartsList) = nlStr.intercalate hugePartsList := by
  rw [tailText, huge_splitOn, last50_eq_drop,
    show hugePartsList.length - 50 = 0 from by rw [hugePartsList]; decide, List.drop_zero]

theorem huge_decomp : nlStr.intercalate hugePartsList = hugePrefix ++ hugeLineText := by
  rw [hugePartsList,
    intercalate_cons_of_ne_nil _ _ _ (List.cons_ne_nil _ _),
    intercalate_cons_of_ne_nil _ _ _ (List.cons_ne_nil _ _),
    intercalate_cons_of_ne_nil _ _ _ (List.cons_ne_nil _ _),
    intercalate_cons_of_ne_nil _ _ _ (List.cons_ne_nil _ _),
    intercalate_cons_of_ne_nil _ _ _ (List.cons_ne_nil _ _),
    intercalate_single, hugePrefix, headerStr]
  simp [List.append_assoc]

theorem huge_avail : availableChars (nlStr.intercalate hugePartsList) = -5266 := by
  rw [availableChars, huge_tail, huge_length,
    show truncation_notice.length = 93 from by decide]
  decide

theorem pyRfind_append_of_not_mem (c : Char) (a b : Str) (h : c ∉ b) :
    pyRfind c (a ++ b) = pyRfind c a := by
  rw [pyRfind, pyRfind, List.reverse_append, List.findIdx?_append]
  have hb : List.findIdx? (fun x => x = c) b.reverse = none := by
    rw [List.findIdx?_eq_none_iff]
    intro x hx
    simp only [decide_eq_false_iff_not]
    exact fun he => h (he ▸ List.mem_reverse.mp hx)
  rw [hb, Option.none_or]
  cases ha : List.findIdx? (fun x => x = c) a.reverse with
  | none => simp
  | some i =>
    simp only [Option.map_some', List.length_append, List.length_reverse]
    omega

set_option maxRecDepth 400000 in
theorem hugePrefix_length : hugePrefix.length = 173 := by decide

set_option maxRecDepth 400000 in
theorem hugePrefix_rfind : pyRfind '\n' hugePrefix = 172 := by decide

theorem huge_truncate :
    truncateStep (nlStr.intercalate hugePartsList) =
      hugePrefix.take 172 ++ truncation_notice ++ nlStr.intercalate hugePartsList := by
  rw [truncateStep, if_pos (by rw [huge_length]; decide), huge_tail, huge_avail]
  have htn : (((nlStr.intercalate hugePartsList).length : Int) + (-5266 : Int)).toNat = 39907 := by
    rw [huge_length]
    decide
  rw [pyTake, if_pos (by decide), htn, huge_decomp]
  have htk : List.take 39907 (hugePrefix ++ hugeLineText) =
      hugePrefix ++ List.replicate 39734 'x' := by
    rw [List.take_append_eq_append_take,
      List.take_of_length_le (by rw [hugePrefix_length]; omega), hugePrefix_length,
      show (39907 : Nat) - 173 = 39734 from rfl,
      show hugeLineText = List.replicate 45000 'x' from rfl, List.take_replicate,
      show (39734 : Nat) ⊓ 45000 = 39734 from by decide]
  rw [htk]
  have hrf : pyRfind '\n' (hugePrefix ++ List.replicate 39734 'x') = 172 := by
    rw [pyRfind_append_of_not_mem _ _ _ (fun hm => by simpa using mem_xline _ 39734 hm)]
    exact hugePrefix_rfind
  have htk2 : List.take 172 (hugePrefix ++ List.replicate 39734 'x') = hugePrefix.take 172 := by
    rw [List.take_append_eq_append_take, hugePrefix_length,
      show (172 : Nat) - 173 = 0 from rfl, List.take_zero, List.append_nil]
  rw [cutToLastLine, hrf, if_pos (by decide), show ((172 : Int)).toNat = 172 from rfl, htk2]

theorem huge_get_length : (get_compute_messages_local hugeLineText cexPath).length = 45438 := by
  rw [get_compute_messages_local, huge_format, huge_truncate]
  simp only [List.length_append]
  rw [List.length_take, hugePrefix_length, huge_length,
    show truncation_notice.length = 93 from by decide]
  rfl

/-- C4 counterexample: for the single 45,000-character-line input, the
formatted text (45,173 chars, at most 50 lines) exceeds the budget, the
whole text becomes the preserved tail, the head budget is negative, and
the Python negative slice keeps 39,907 characters of head (cut back to
the last newline at index 172), so the returned output has 45,438
characters — far over the 40,000-character budget. -/
theorem c4_cex_budget_exceeded :
    max_chars < (format_compute_messages_local hugeLineText cexPath).length ∧
    max_chars < (get_compute_messages_local hugeLineText cexPath).length := by
  constructor
  · rw [huge_format, huge_length]; decide
  · rw [huge_get_length]; decide

/-- C4 (amended): the output of the compute-message operation is within
the 40,000-character budget whenever the preserved last-50-lines tail
plus the truncation notice fit within the budget; when they alone exceed
the budget, the head slice bound goes negative and the output exceeds
the budget (see the counterexample). -/
theorem c4_budget_bound (text p : Str)
    (h : (tailText (format_compute_messages_local text p)).length +
      truncation_notice.length ≤ max_chars) :
    (get_compute_messages_local text p).length ≤ max_chars := by
  rw [get_compute_messages_local, truncateStep]
  by_cases hf : (format_compute_messages_local text p).length > max_chars
  · rw [if_pos hf]
    have havail : 0 ≤ availableChars (format_compute_messages_local text p) := by
      rw [availableChars]
      omega
    have htoNat : (availableChars (format_compute_messages_local text p)).toNat =
        max_chars - (tailText (format_compute_messages_local text p)).length -
          truncation_notice.length := by
      rw [availableChars]
      omega
    have hp : (pyTake (format_compute_messages_local text p)
        (availableChars (format_compute_messages_local text p))).length ≤
        (availableChars (format_compute_messages_local text p)).toNat := by
      rw [pyTake, if_neg (by omega), List.length_take]
      omega
    have hc : (cutToLastLine (pyTake (format_compute_messages_local text p)
        (availableChars (format_compute_messages_local text p)))).length ≤
        (pyTake (format_compute_messages_local text p)
          (availableChars (format_compute_messages_local text p))).length := by
      rw [cutToLastLine]
      split
      · rw [List.length_take]
        omega
      · omega
    simp only [List.length_append]
    omega
  · rw [if_neg hf]
    omega

theorem c4_budget_bound_witness :
    (tailText (format_compute_messages_local c6Text cexPath)).length +
      truncation_notice.length ≤ max_chars ∧
    (get_compute_messages_local c6Text cexPath).length ≤ max_chars :=
  ⟨by decide, c4_budget_bound c6Text cexPath (by decide)⟩

/-- C3 counterexample: for the single 45,000-character-line input the
formatted text exceeds the budget and the head budget (budget minus tail
minus notice) is negative, i.e. zero remaining characters under the
claim. The claimed output would then be just the notice followed by
the tail, but the code returns 172 additional head characters: the
Python negative slice does not take "up to" the (negative) budget. -/
theorem c3_cex_negative_head_budget :
    max_chars < (format_compute_messages_local hugeLineText cexPath).length ∧
    availableChars (format_compute_messages_local hugeLineText cexPath) < 0 ∧
    get_compute_messages_local hugeLineText cexPath ≠
      specTruncated (format_compute_messages_local hugeLineText cexPath) := by
  refine ⟨by rw [huge_format, huge_length]; decide,
    by rw [huge_format, huge_avail]; decide, ?_⟩
  intro heq
  have h2 : (specTruncated (format_compute_messages_local hugeLineText cexPath)).length =
      45266 := by
    rw [specTruncated, huge_format, huge_avail,
      show ((-5266 : Int)).toNat = 0 from rfl, List.take_zero,
      show cutToLastLine [] = [] from by decide, List.nil_append,
      List.length_append, huge_tail, huge_length,
      show truncation_notice.length = 93 from by decide]
  have h1 := huge_get_length
  rw [heq, h2] at h1
  exact absurd h1 (by decide)

set_option maxRecDepth 1000000 in
theorem c5_cex_overhead_not_fixed :
    (format_compute_messages_local c5Text cexPath).length ≤ max_chars ∧
    (format_compute_messages_local c5Text cexPath).length >
      c5Text.length + headerOverhead cexPath :=
  ⟨by decide, by decide⟩

end RasMcp
